import Mathlib

/-!
Verification of the S-expression extraction core of `kicad_agent.py`.

The tree type mirrors the Python values produced by the `sexpdata` reader:
`Symbol` atoms (barewords), plain strings (quoted literals), numbers, and
nested lists.  Numbers carry their source literal, since no extraction rule
ever reads a numeric value.  `SList` is the list spine, kept as a mutual
inductive (rather than a nested `List SExpr`) so that structural mutual
recursion and induction are available.

Equality semantics embedded from `sexpdata`: `x == Symbol(s)` holds exactly
when `x` is a `Symbol` whose name is `s` (`SExpBase.__eq__` requires the same
class), and `x == "Reference"` (a plain Python string) holds exactly when `x`
is a parsed quoted string with that text.
-/

mutual

inductive SExpr where
  | sym : String → SExpr
  | str : String → SExpr
  | num : String → SExpr
  | list : SList → SExpr
deriving DecidableEq, Repr

inductive SList where
  | nil : SList
  | cons : SExpr → SList → SList
deriving DecidableEq, Repr

end

/-- Children of a list node as an ordinary `List`; atoms have no children
(the Python code only iterates lists, guarded by `isinstance(..., list)`). -/
def SList.toList : SList → List SExpr
  | .nil => []
  | .cons x xs => x :: xs.toList

/-- Build the spine from an ordinary list (used to write concrete trees). -/
def SList.ofList : List SExpr → SList
  | [] => .nil
  | x :: xs => .cons x (SList.ofList xs)

/-- Shorthand for a concrete list node. -/
def L (xs : List SExpr) : SExpr := .list (SList.ofList xs)

def childrenOf : SExpr → List SExpr
  | .list xs => xs.toList
  | _ => []

/-- The head test of `find_all`:
`s_expr and isinstance(s_expr[0], sexpdata.Symbol) and s_expr[0].value() == symbol`. -/
def headIs (symbol : String) : SExpr → Bool
  | .list (.cons (.sym h) _) => h == symbol
  | _ => false

mutual

/-- `find_all(symbol, s_expr)` from `kicad_agent.py`: collect every list node
(root included) whose first element is the given `Symbol`, appending the node
before recursing into each of its elements. -/
def find_all (symbol : String) : SExpr → List SExpr
  | .list xs =>
      (if headIs symbol (.list xs) then [SExpr.list xs] else []) ++
        findAllL symbol xs
  | _ => []

/-- The `for item in s_expr: found.extend(find_all(symbol, item))` loop. -/
def findAllL (symbol : String) : SList → List SExpr
  | .nil => []
  | .cons x xs => find_all symbol x ++ findAllL symbol xs

end

mutual

/-- All list nodes of a tree in preorder: a node comes before every node of
its subtrees, and the elements are traversed left to right.  Used as the
independent notion of source-document order. -/
def preorderLists : SExpr → List SExpr
  | .list xs => SExpr.list xs :: preorderListsL xs
  | _ => []

def preorderListsL : SList → List SExpr
  | .nil => []
  | .cons x xs => preorderLists x ++ preorderListsL xs

end

/-- A parsed component record: the dict
`{"ref": ..., "value": ..., "footprint": ...}` built per matched block. -/
structure CompR where
  ref : Option SExpr
  value : Option SExpr
  footprint : Option SExpr
deriving DecidableEq, Repr

/-- A parsed net record: the dict `{"code": ..., "name": ...}` built per
matched `net` block.  The code builds no connection data. -/
structure NetR where
  code : Option SExpr
  name : Option SExpr
deriving DecidableEq, Repr

/-- The value returned by `parse_kicad_schematic`. -/
structure Schematic where
  title : Option SExpr
  components : List CompR
  nets : List NetR
deriving DecidableEq, Repr

/-- The title loop over the elements of `title_blocks[0]`: stop at the first
element that is a list headed by `Symbol('title')` and take its second
element (`title = item[1]; break`).  `none` models the `IndexError` raised by
`item[1]` when that first match is a singleton. -/
def titleFromItems : List SExpr → Option (Option SExpr)
  | [] => some none
  | x :: rest =>
      if headIs "title" x then
        match (childrenOf x)[1]? with
        | some v => some (some v)
        | none => none
      else titleFromItems rest

/-- Lines 30-36: `title_blocks = find_all('title_block', s_expr)`; when
non-empty, scan the elements of the first block. -/
def extractTitle (t : SExpr) : Option (Option SExpr) :=
  match find_all "title_block" t with
  | [] => some none
  | b :: _ => titleFromItems (childrenOf b)

/-- One iteration of the component field loop (lines 45-53): a list headed by
`Symbol('property')` with more than two elements (`len(sub) > 2`, so indices
1 and 2 exist) whose second element is the plain string `"Reference"` /
`"Value"` / `"Footprint"` overwrites the corresponding field with the third
element; everything else is ignored. -/
def compStep (acc : CompR) (sub : SExpr) : CompR :=
  if headIs "property" sub then
    match (childrenOf sub)[1]?, (childrenOf sub)[2]? with
    | some key, some v =>
        if key = .str "Reference" then { acc with ref := some v }
        else if key = .str "Value" then { acc with value := some v }
        else if key = .str "Footprint" then { acc with footprint := some v }
        else acc
    | _, _ => acc
  else acc

/-- The per-block component extraction: fold the field loop over the block's
elements starting from all fields absent. -/
def extractComp (c : SExpr) : CompR :=
  (childrenOf c).foldl compStep ⟨none, none, none⟩

/-- One iteration of the net field loop (lines 63-68, an `if`/`elif` chain):
a list headed by `Symbol('code')` or `Symbol('name')` sets the corresponding
field to its second element; `none` models the unguarded `sub[1]` raising
`IndexError` when the list is a singleton. -/
def netStep (acc : NetR) (sub : SExpr) : Option NetR :=
  if headIs "code" sub then
    match (childrenOf sub)[1]? with
    | some v => some { acc with code := some v }
    | none => none
  else if headIs "name" sub then
    match (childrenOf sub)[1]? with
    | some v => some { acc with name := some v }
    | none => none
  else some acc

/-- The `for sub in net` loop: thread the record through `netStep`,
propagating a raised `IndexError`. -/
def netLoop (acc : NetR) : List SExpr → Option NetR
  | [] => some acc
  | sub :: rest =>
      match netStep acc sub with
      | some acc2 => netLoop acc2 rest
      | none => none

/-- The per-block net extraction (may fail with `IndexError`). -/
def extractNet (n : SExpr) : Option NetR :=
  netLoop ⟨none, none⟩ (childrenOf n)

/-- The `for net in find_all('net', s_expr)` loop: one record appended per
block, an `IndexError` in any block aborting the whole run. -/
def extractNets : List SExpr → Option (List NetR)
  | [] => some []
  | n :: rest =>
      match extractNet n, extractNets rest with
      | some netr, some ns => some (netr :: ns)
      | _, _ => none

/-- `parse_kicad_schematic` (lines 27-78): title from the first
`title_block`, one component record per `find_all('symbol') +
find_all('comp')` block in that concatenated order, one net record per
`find_all('net')` block.  `none` models an uncaught `IndexError` escaping
the function. -/
def parse_kicad_schematic (t : SExpr) : Option Schematic :=
  match extractTitle t with
  | none => none
  | some title =>
      match extractNets (find_all "net" t) with
      | none => none
      | some nets =>
          some ⟨title, (find_all "symbol" t ++ find_all "comp" t).map extractComp, nets⟩

/-! ## The Reader

The Reader of the schematic text is the `sexpdata` dependency
(`sexpdata.loads`), which is not part of this repository's sources; only its
caller `parse_kicad_schematic_tool` is.  It is therefore modelled from the
spec's grammar. -/

/-- A token of the S-expression grammar. -/
inductive Tok where
  | lparen : Tok
  | rparen : Tok
  | atom : SExpr → Tok
deriving DecidableEq, Repr

/-- Drop a leading run of decimal digits. -/
def dropDigits : List Char → List Char
  | [] => []
  | c :: cs => if c.isDigit then dropDigits cs else c :: cs

/-- Modelled from the spec: the numeric literal grammar after the optional
sign — digits, an optional fractional part, an optional exponent. -/
def numAfterSign (cs : List Char) : Bool :=
  match cs with
  | [] => false
  | c :: _ =>
      c.isDigit &&
        (let rest := dropDigits cs
         let rest2 := match rest with
           | '.' :: r => dropDigits r
           | _ => rest
         match rest2 with
         | [] => true
         | e :: r3 =>
             (e == 'e' || e == 'E') &&
               (let r4 := match r3 with
                 | s :: r => if s == '+' || s == '-' then r else r3
                 | [] => r3
                match r4 with
                | [] => false
                | d :: _ => d.isDigit && dropDigits r4 == []))

/-- Modelled from the spec: a token matching the numeric literal grammar
(optional sign, digits, optional fractional part and exponent). -/
def isNumericLit (s : String) : Bool :=
  match s.toList with
  | '+' :: rest => numAfterSign rest
  | '-' :: rest => numAfterSign rest
  | cs => numAfterSign cs

/-- Modelled from the spec: a bare token is a `Num` when it matches the
numeric literal grammar and a `Symbol` otherwise.  `Num` keeps the source
literal, since no extraction rule ever reads a numeric value. -/
def classifyTok (cs : List Char) : SExpr :=
  let s := String.mk cs
  if isNumericLit s then .num s else .sym s

/-- Emit the bare token accumulated so far (reversed), if any. -/
def flushAcc (acc : List Char) : List Tok :=
  match acc with
  | [] => []
  | _ => [.atom (classifyTok acc.reverse)]

/-- Tokenizer mode: inside a bare token (with its reversed accumulator), or
inside a quoted string (with a pending-escape flag). -/
inductive TMode where
  | norm : List Char → TMode
  | instr : List Char → Bool → TMode

/-- Modelled from the spec: the Reader's lexer.  Whitespace separates
tokens, parentheses open and close lists, a double-quoted run is a string
(a backslash escaping the next character), an unterminated string fails;
every other maximal run of characters is a bare token. -/
def tokAux : TMode → List Char → Except String (List Tok)
  | .norm acc, [] => .ok (flushAcc acc)
  | .instr _ _, [] => .error "unterminated string literal"
  | .norm acc, c :: cs =>
      if c == '(' then
        match tokAux (.norm []) cs with
        | .ok ts => .ok (flushAcc acc ++ Tok.lparen :: ts)
        | .error e => .error e
      else if c == ')' then
        match tokAux (.norm []) cs with
        | .ok ts => .ok (flushAcc acc ++ Tok.rparen :: ts)
        | .error e => .error e
      else if c == '"' then
        match tokAux (.instr [] false) cs with
        | .ok ts => .ok (flushAcc acc ++ ts)
        | .error e => .error e
      else if c.isWhitespace then
        match tokAux (.norm []) cs with
        | .ok ts => .ok (flushAcc acc ++ ts)
        | .error e => .error e
      else tokAux (.norm (c :: acc)) cs
  | .instr acc esc, c :: cs =>
      if esc then tokAux (.instr (c :: acc) false) cs
      else if c == '\\' then tokAux (.instr acc true) cs
      else if c == '"' then
        match tokAux (.norm []) cs with
        | .ok ts => .ok (Tok.atom (.str (String.mk acc.reverse)) :: ts)
        | .error e => .error e
      else tokAux (.instr (c :: acc) false) cs

/-- Modelled from the spec: the Reader's list builder, an explicit stack of
open lists.  A close with no open list, or end of input with open lists
pending, fails; completed top-level nodes are collected in order. -/
def parseToks : List Tok → List (List SExpr) → List SExpr →
    Except String (List SExpr)
  | [], [], done => .ok done.reverse
  | [], _ :: _, _ => .error "unexpected end of input: unclosed list"
  | .lparen :: ts, stack, done => parseToks ts ([] :: stack) done
  | .rparen :: _, [], _ => .error "unbalanced closing parenthesis"
  | .rparen :: ts, frame :: rest, done =>
      match rest with
      | [] => parseToks ts [] (SExpr.list (SList.ofList frame.reverse) :: done)
      | f2 :: r2 =>
          parseToks ts ((SExpr.list (SList.ofList frame.reverse) :: f2) :: r2) done
  | .atom a :: ts, [], done => parseToks ts [] (a :: done)
  | .atom a :: ts, frame :: rest, done => parseToks ts ((a :: frame) :: rest) done

/-- Outcome of the Reader: one root node, or a parse error. -/
inductive ReadResult where
  | ok : SExpr → ReadResult
  | err : String → ReadResult
deriving DecidableEq, Repr

/-- Modelled from the spec: the Reader (`sexpdata.loads`, a dependency not
under src/) — lex and parse the whole text into a single root node, failing
with a parse error on malformed input and never returning a partial tree. -/
def loads (text : String) : ReadResult :=
  match tokAux (.norm []) text.toList with
  | .error e => .err e
  | .ok ts =>
      match parseToks ts [] [] with
      | .error e => .err e
      | .ok [r] => .ok r
      | .ok [] => .err "no expression found"
      | .ok _ => .err "expected a single expression"

/-- What `parse_kicad_schematic_tool` hands back to its caller: the
extraction result, or the single structured error value
`{"error": str(e)}` built by its `except` clause. -/
inductive ToolResult where
  | ok : Schematic → ToolResult
  | err : String → ToolResult
deriving DecidableEq, Repr

/-- `parse_kicad_schematic_tool` (lines 116-128), minus the file read: parse
the text with the Reader and extract; any exception — a parse error from the
Reader or an `IndexError` from the extraction — is caught and returned as
the error value. -/
def parse_kicad_schematic_tool (text : String) : ToolResult :=
  match loads text with
  | .err e => .err e
  | .ok t =>
      match parse_kicad_schematic t with
      | some r => .ok r
      | none => .err "list index out of range"

/-! ## Spec-side comparison definitions

These follow the spec's (or the claim's) words, not the source; they exist
only to be compared with the source-derived definitions above. -/

/-- Modelled from the spec: the value of the first child list headed by the
given symbol that has a second element (absent when there is none). -/
def childValue (name : String) : List SExpr → Option SExpr
  | [] => none
  | x :: rest =>
      if headIs name x then
        match (childrenOf x)[1]? with
        | some v => some v
        | none => childValue name rest
      else childValue name rest

/-- A net connection as described by the spec: both parts present. -/
structure Connection where
  ref : SExpr
  pin : SExpr
deriving DecidableEq, Repr

/-- Modelled from the spec: the connections of a `net` block — each
`node`-headed child list is scanned for nested `ref` and `pin` child lists,
and a `Connection` is emitted exactly when both are present. -/
def specConnectionsOfNet (net : SExpr) : List Connection :=
  (childrenOf net).filterMap fun sub =>
    if headIs "node" sub then
      match childValue "ref" (childrenOf sub), childValue "pin" (childrenOf sub) with
      | some r, some p => some ⟨r, p⟩
      | _, _ => none
    else none

/-- Modelled from the spec: variant B component extraction — the block's
children are scanned for lists headed directly by `ref`, `value` or
`footprint`, whose second element is the field value. -/
def specCompVariantB (c : SExpr) : CompR :=
  ⟨childValue "ref" (childrenOf c), childValue "value" (childrenOf c),
   childValue "footprint" (childrenOf c)⟩

/-- Modelled from the spec: the component records of all matched blocks
(`symbol`- or `comp`-headed) in source document order, i.e. in one preorder
pass over the tree. -/
def docOrderComponents (t : SExpr) : List CompR :=
  ((preorderLists t).filter fun l => headIs "symbol" l || headIs "comp" l).map
    extractComp

/-- Modelled from the claim: the title comes from the first `title_block`
in preorder and, within it, from the first `title`-headed child's second
element; absent when any of these is missing. -/
def firstTitleBlockTitle (t : SExpr) : Option SExpr :=
  match ((preorderLists t).filter fun l => headIs "title_block" l).head? with
  | none => none
  | some b =>
      match (childrenOf b).find? (headIs "title") with
      | none => none
      | some c => (childrenOf c)[1]?

/-- A net-block child on which the extraction's unguarded `sub[1]` raises
`IndexError`: a `code`- or `name`-headed list with no second element. -/
def netBad (sub : SExpr) : Bool :=
  (headIs "code" sub || headIs "name" sub) && ((childrenOf sub)[1]?).isNone

/-! ## Concrete documents used by the claim theorems -/

/-- A `net` block carrying a complete `node` child. -/
def netBlockN : SExpr :=
  L [.sym "net", L [.sym "code", .str "1"],
     L [.sym "node", L [.sym "ref", .str "R1"], L [.sym "pin", .str "1"]]]

/-- A document holding `netBlockN`. -/
def docN : SExpr := L [.sym "kicad_sch", netBlockN]

/-- `docN` with the `node` child removed from its net. -/
def docNnoNode : SExpr := L [.sym "kicad_sch", L [.sym "net", L [.sym "code", .str "1"]]]

/-- The spec's variant-B example block `(comp (ref "C1") (value "100nF") (footprint "0603"))`. -/
def compBlockB : SExpr :=
  L [.sym "comp", L [.sym "ref", .str "C1"], L [.sym "value", .str "100nF"],
     L [.sym "footprint", .str "0603"]]

/-- A document holding `compBlockB`. -/
def docB : SExpr := L [.sym "kicad_sch", compBlockB]

/-- A `comp` block appearing in the document before a `symbol` block. -/
def compBlockD : SExpr :=
  L [.sym "comp", L [.sym "property", .str "Reference", .str "C1"]]

/-- The `symbol` block appearing after `compBlockD`. -/
def symBlockD : SExpr :=
  L [.sym "symbol", L [.sym "property", .str "Reference", .str "R1"]]

/-- A document interleaving a `comp` block before a `symbol` block. -/
def interleavedDoc : SExpr := L [.sym "kicad_sch", compBlockD, symBlockD]

/-- A well-formed document whose `title` child list has no second element. -/
def badTitleDoc : SExpr :=
  L [.sym "kicad_sch", L [.sym "title_block", L [.sym "title"]]]

/-- The text of `badTitleDoc`. -/
def badTitleText : String := "(kicad_sch (title_block (title)))"

/-- The claim's malformed input, with a missing closing parenthesis. -/
def malformedText : String := "(symbol (property \"Reference\" \"R1\")"

/-- The well-formed-but-semantically-empty document text. -/
def emptyDocText : String := "()"

/-- A document with two `title_block` nodes, the first holding two
`title` children. -/
def twoTitlesDoc : SExpr :=
  L [.sym "kicad_sch",
     L [.sym "title_block", L [.sym "title", .str "First"],
        L [.sym "title", .str "Second"]],
     L [.sym "title_block", L [.sym "title", .str "Third"]]]

/-! ## Theorems -/

/-- Sanity check: the spec's full sample document extracts to the expected
title, component record and net record (the net, per the code, with no
connection data). -/
theorem sample_document_extraction :
    parse_kicad_schematic
      (L [.sym "kicad_sch",
          L [.sym "title_block", L [.sym "title", .str "Power Supply"]],
          L [.sym "symbol", L [.sym "property", .str "Reference", .str "R1"],
             L [.sym "property", .str "Value", .str "10k"]],
          L [.sym "net", L [.sym "code", .str "1"], L [.sym "name", .str "GND"],
             L [.sym "node", L [.sym "ref", .str "R1"], L [.sym "pin", .str "1"]]]]) =
    some ⟨some (.str "Power Supply"),
          [⟨some (.str "R1"), some (.str "10k"), none⟩],
          [⟨some (.str "1"), some (.str "GND")⟩]⟩ := by decide

theorem toList_ofList (l : List SExpr) : (SList.ofList l).toList = l := by
  induction l with
  | nil => rfl
  | cons x xs ih => simp [SList.ofList, SList.toList, ih]

mutual

theorem find_all_eq_filter (s : String) (t : SExpr) :
    find_all s t = (preorderLists t).filter fun l => headIs s l := by
  match t with
  | .sym a => rfl
  | .str a => rfl
  | .num a => rfl
  | .list xs =>
      rw [find_all, preorderLists, List.filter_cons, findAllL_eq_filter s xs]
      by_cases h : headIs s (SExpr.list xs) <;> simp [h]

theorem findAllL_eq_filter (s : String) (xs : SList) :
    findAllL s xs = (preorderListsL xs).filter fun l => headIs s l := by
  match xs with
  | .nil => rfl
  | .cons x rest =>
      rw [findAllL, preorderListsL, List.filter_append,
        find_all_eq_filter s x, findAllL_eq_filter s rest]

end

theorem parse_parts (t : SExpr) (r : Schematic)
    (h : parse_kicad_schematic t = some r) :
    extractTitle t = some r.title ∧
    r.components = (find_all "symbol" t ++ find_all "comp" t).map extractComp ∧
    extractNets (find_all "net" t) = some r.nets := by
  unfold parse_kicad_schematic at h
  cases h1 : extractTitle t with
  | none => rw [h1] at h; exact absurd h (by simp)
  | some title =>
      rw [h1] at h
      cases h2 : extractNets (find_all "net" t) with
      | none => rw [h2] at h; exact absurd h (by simp)
      | some nets =>
          rw [h2] at h
          cases h
          exact ⟨rfl, rfl, rfl⟩

theorem titleFromItems_some (xs : List SExpr) (v : Option SExpr)
    (h : titleFromItems xs = some v) :
    (xs.find? (headIs "title") = none ∧ v = none) ∨
    (∃ c, xs.find? (headIs "title") = some c ∧ (childrenOf c)[1]? = v ∧
      v.isSome) := by
  induction xs with
  | nil =>
      simp [titleFromItems] at h
      exact Or.inl ⟨rfl, h.symm⟩
  | cons x rest ih =>
      by_cases hx : headIs "title" x
      · rw [List.find?_cons_of_pos _ hx]
        simp only [titleFromItems, hx, if_true] at h
        cases hv : (childrenOf x)[1]? with
        | none => rw [hv] at h; exact absurd h (by simp)
        | some w =>
            rw [hv] at h
            cases h
            exact Or.inr ⟨x, rfl, hv, rfl⟩
      · rw [List.find?_cons_of_neg _ hx]
        simp only [titleFromItems, hx, if_false] at h
        exact ih h

theorem titleFromItems_none (xs : List SExpr) :
    titleFromItems xs = none ↔
      ∃ c, xs.find? (headIs "title") = some c ∧ (childrenOf c)[1]? = none := by
  induction xs with
  | nil => simp [titleFromItems]
  | cons x rest ih =>
      by_cases hx : headIs "title" x
      · rw [List.find?_cons_of_pos _ hx]
        simp only [titleFromItems, hx, if_true]
        cases hv : (childrenOf x)[1]? with
        | none =>
            constructor
            · intro _
              exact ⟨x, rfl, hv⟩
            · intro _
              rfl
        | some w =>
            constructor
            · intro hc
              exact absurd hc (by simp)
            · rintro ⟨c, hc, h1⟩
              obtain rfl : x = c := by injection hc
              rw [hv] at h1
              exact Option.noConfusion h1
      · rw [List.find?_cons_of_neg _ hx]
        simp only [titleFromItems, hx, if_false]
        exact ih

theorem netStep_none_iff (acc : NetR) (sub : SExpr) :
    netStep acc sub = none ↔ netBad sub = true := by
  unfold netStep netBad
  by_cases h1 : headIs "code" sub
  · simp only [h1, if_true, Bool.true_or, Bool.true_and]
    cases hv : (childrenOf sub)[1]? <;> simp [hv]
  · by_cases h2 : headIs "name" sub
    · simp only [h1, h2, if_true, if_false, Bool.false_or, Bool.true_and]
      cases hv : (childrenOf sub)[1]? <;> simp [hv]
    · simp [h1, h2]

theorem netLoop_none_iff (xs : List SExpr) :
    ∀ acc, netLoop acc xs = none ↔ ∃ sub ∈ xs, netBad sub = true := by
  induction xs with
  | nil => intro acc; simp [netLoop]
  | cons x rest ih =>
      intro acc
      by_cases hx : netBad x = true
      · have hs : netStep acc x = none := (netStep_none_iff acc x).mpr hx
        simp [netLoop, hs, hx]
      · cases hs : netStep acc x with
        | none => exact absurd ((netStep_none_iff acc x).mp hs) hx
        | some acc2 =>
            simp only [netLoop, hs]
            rw [ih acc2]
            constructor
            · rintro ⟨sub, hm, hb⟩; exact ⟨sub, List.mem_cons_of_mem _ hm, hb⟩
            · rintro ⟨sub, hm, hb⟩
              rcases List.mem_cons.mp hm with hEq | hm2
              · exact absurd (hEq ▸ hb) hx
              · exact ⟨sub, hm2, hb⟩

theorem extractNet_none_iff (n : SExpr) :
    extractNet n = none ↔ ∃ sub ∈ childrenOf n, netBad sub = true :=
  netLoop_none_iff (childrenOf n) ⟨none, none⟩

theorem extractNets_none_iff (l : List SExpr) :
    extractNets l = none ↔ ∃ n ∈ l, extractNet n = none := by
  induction l with
  | nil => simp [extractNets]
  | cons x rest ih =>
      cases hx : extractNet x with
      | none => simp [extractNets, hx]
      | some netr =>
          cases hr : extractNets rest with
          | none =>
              simp only [extractNets, hx, hr]
              have := ih.mp hr
              rcases this with ⟨n, hm, hn⟩
              simp only [true_iff]
              exact ⟨n, List.mem_cons_of_mem _ hm, hn⟩
          | some ns =>
              simp only [extractNets, hx, hr]
              constructor
              · intro hc; exact absurd hc (by simp)
              · rintro ⟨n, hm, hn⟩
                rcases List.mem_cons.mp hm with hEq | hm2
                · exact absurd (hEq ▸ hx) (by simp [hn, hEq ▸ hn])
                · exact absurd (ih.mpr ⟨n, hm2, hn⟩) (by simp [hr])

theorem compStep_not_property (acc : CompR) (sub : SExpr)
    (h : headIs "property" sub = false) : compStep acc sub = acc := by
  simp [compStep, h]

theorem compStep_short (acc : CompR) (sub : SExpr)
    (h : (childrenOf sub)[2]? = none) : compStep acc sub = acc := by
  unfold compStep
  by_cases hp : headIs "property" sub
  · simp only [hp, if_true, h]
    cases hk : (childrenOf sub)[1]? <;> rfl
  · simp [hp]

theorem foldl_compStep_id (xs : List SExpr) :
    ∀ acc, (∀ sub ∈ xs, headIs "property" sub = false) →
      xs.foldl compStep acc = acc := by
  induction xs with
  | nil => intro acc _; rfl
  | cons x rest ih =>
      intro acc h
      rw [List.foldl_cons, compStep_not_property acc x (h x (List.mem_cons_self x rest))]
      exact ih acc fun sub hm => h sub (List.mem_cons_of_mem _ hm)

/-! ## Claim theorems -/

/-- Claim C1: the claim (and the spec) say each `net` block's `connections`
are built from its `node`-headed children, a complete `node` yielding a
`Connection`.  The code builds no connections at all: on a net with a
complete `node` child the emitted record is `{code, name}` only, the
spec-side connection list is non-empty, and the output is identical with the
`node` child deleted. -/
theorem c1_net_connections_not_built :
    parse_kicad_schematic docN =
      some ⟨none, [], [⟨some (.str "1"), none⟩]⟩ ∧
    specConnectionsOfNet netBlockN = [⟨.str "R1", .str "1"⟩] ∧
    parse_kicad_schematic docN = parse_kicad_schematic docNnoNode := by decide

/-- Claim C2, counterexample: on the claim's own block
`(comp (ref "C1") (value "100nF") (footprint "0603"))` the code emits the
component with all three canonical fields absent, not the populated record
that variant-B extraction (spec-modelled alongside) would produce. -/
theorem c2_counterexample :
    parse_kicad_schematic docB = some ⟨none, [⟨none, none, none⟩], []⟩ ∧
    specCompVariantB compBlockB =
      ⟨some (.str "C1"), some (.str "100nF"), some (.str "0603")⟩ ∧
    ¬ (parse_kicad_schematic docB).map Schematic.components =
        some [specCompVariantB compBlockB] := by decide

/-- Claim C2, amended: component extraction reads only `property`-headed
children; a block none of whose children is `property`-headed — in
particular a variant-B `comp` block whose children are `ref`/`value`/
`footprint`-headed lists — yields the record with every field absent. -/
theorem c2_amended_no_property_no_fields (c : SExpr)
    (h : ∀ sub ∈ childrenOf c, headIs "property" sub = false) :
    extractComp c = ⟨none, none, none⟩ :=
  foldl_compStep_id (childrenOf c) ⟨none, none, none⟩ h

/-- Claim C2, witness: the amended theorem applied to the claim's block. -/
theorem c2_witness : extractComp compBlockB = ⟨none, none, none⟩ :=
  c2_amended_no_property_no_fields compBlockB (by decide)

/-- Claim C3, counterexample: a well-formed input (the Reader succeeds) on
which extraction itself aborts — the `title` child list has no second
element, the unguarded `item[1]` raises `IndexError`, and the tool reports
that error; so a malformed field does not degrade to an absent value, and a
non-`ParseError` failure escapes the extraction layer. -/
theorem c3_counterexample :
    loads badTitleText = .ok badTitleDoc ∧
    parse_kicad_schematic badTitleDoc = none ∧
    parse_kicad_schematic_tool badTitleText = .err "list index out of range" := by decide

/-- Claim C3, amended: extraction is total on component blocks (their field
reads are length-guarded), but aborts with `IndexError` exactly when the
first `title`-headed child of the first `title_block` has no second element,
or some `net` block has a `code`- or `name`-headed child with no second
element. -/
theorem c3_amended_failure_characterization (t : SExpr) :
    parse_kicad_schematic t = none ↔
      ((∃ b, (find_all "title_block" t).head? = some b ∧
          ∃ c, (childrenOf b).find? (headIs "title") = some c ∧
            (childrenOf c)[1]? = none) ∨
        ∃ n ∈ find_all "net" t, ∃ sub ∈ childrenOf n, netBad sub = true) := by
  have hiff : parse_kicad_schematic t = none ↔
      (extractTitle t = none ∨ extractNets (find_all "net" t) = none) := by
    unfold parse_kicad_schematic
    cases h1 : extractTitle t <;> cases h2 : extractNets (find_all "net" t) <;>
      simp [h1, h2]
  rw [hiff]
  have hTitle : extractTitle t = none ↔
      ∃ b, (find_all "title_block" t).head? = some b ∧
        ∃ c, (childrenOf b).find? (headIs "title") = some c ∧
          (childrenOf c)[1]? = none := by
    unfold extractTitle
    cases hfa : find_all "title_block" t with
    | nil => simp
    | cons b rest =>
        simp only [List.head?]
        rw [titleFromItems_none]
        constructor
        · rintro ⟨c, hc, h1⟩
          exact ⟨b, rfl, c, hc, h1⟩
        · rintro ⟨b2, hb2, c, hc, h1⟩
          obtain rfl : b = b2 := by injection hb2
          exact ⟨c, hc, h1⟩
  have hNets : extractNets (find_all "net" t) = none ↔
      ∃ n ∈ find_all "net" t, ∃ sub ∈ childrenOf n, netBad sub = true := by
    rw [extractNets_none_iff]
    constructor
    · rintro ⟨n, hm, hn⟩
      exact ⟨n, hm, (extractNet_none_iff n).mp hn⟩
    · rintro ⟨n, hm, hsub⟩
      exact ⟨n, hm, (extractNet_none_iff n).mpr hsub⟩
  rw [hTitle, hNets]

/-- Claim C4, counterexample: with a `comp` block before a `symbol` block in
the document, the emitted `components` sequence lists the `symbol` record
first — `find_all('symbol') + find_all('comp')` concatenation, not source
document order. -/
theorem c4_counterexample :
    parse_kicad_schematic interleavedDoc =
      some ⟨none,
        [⟨some (.str "R1"), none, none⟩, ⟨some (.str "C1"), none, none⟩], []⟩ ∧
    docOrderComponents interleavedDoc =
      [⟨some (.str "C1"), none, none⟩, ⟨some (.str "R1"), none, none⟩] ∧
    ¬ (parse_kicad_schematic interleavedDoc).map Schematic.components =
        some (docOrderComponents interleavedDoc) := by decide

/-- Claim C4, amended: `components` lists every matched `symbol` block in
preorder document order, then every matched `comp` block in preorder
document order (one record per matched block, however empty); `nets` lists
every matched `net` block in preorder document order. -/
theorem c4_amended_order (t : SExpr) (r : Schematic)
    (h : parse_kicad_schematic t = some r) :
    r.components =
      (((preorderLists t).filter fun l => headIs "symbol" l) ++
        ((preorderLists t).filter fun l => headIs "comp" l)).map extractComp ∧
    extractNets ((preorderLists t).filter fun l => headIs "net" l) =
      some r.nets := by
  obtain ⟨-, h2, h3⟩ := parse_parts t r h
  refine ⟨?_, ?_⟩
  · rw [h2, find_all_eq_filter, find_all_eq_filter]
  · rw [← find_all_eq_filter]
    exact h3

/-- Claim C4, witness: the amended theorem applied to `interleavedDoc`. -/
theorem c4_witness :
    (⟨none, [⟨some (.str "R1"), none, none⟩, ⟨some (.str "C1"), none, none⟩],
        []⟩ : Schematic).components =
      (((preorderLists interleavedDoc).filter fun l => headIs "symbol" l) ++
        ((preorderLists interleavedDoc).filter fun l => headIs "comp" l)).map
        extractComp ∧
    extractNets ((preorderLists interleavedDoc).filter fun l => headIs "net" l) =
      some (⟨none,
        [⟨some (.str "R1"), none, none⟩, ⟨some (.str "C1"), none, none⟩],
        []⟩ : Schematic).nets :=
  c4_amended_order interleavedDoc _ (by decide)

/-- Claim C5: `find_all` returns exactly the list nodes (root included)
whose first element is the given symbol, in preorder — each node precedes
its descendants in `preorderLists`, matched nodes are descended into, and
nothing is dropped after the first match. -/
theorem c5_find_all_preorder (s : String) (t : SExpr) :
    find_all s t = (preorderLists t).filter fun l => headIs s l :=
  find_all_eq_filter s t

/-- Claim C6: the claim's malformed text (missing closing parenthesis) makes
the Reader fail, and the tool hands the caller the single structured error
value — no entity lists and no partial tree. -/
theorem c6_malformed_input_error :
    loads malformedText = .err "unexpected end of input: unclosed list" ∧
    parse_kicad_schematic_tool malformedText =
      .err "unexpected end of input: unclosed list" := by decide

/-- Claim C7: `()` parses to the empty list and extracts to
`{title: none, components: [], nets: []}`, with the tool succeeding. -/
theorem c7_empty_document :
    loads emptyDocText = .ok (L []) ∧
    parse_kicad_schematic (L []) = some ⟨none, [], []⟩ ∧
    parse_kicad_schematic_tool emptyDocText = .ok ⟨none, [], []⟩ := by decide

/-- Claim C8: `find_all` is a pure function of its tree — two runs are the
same sequence — and on a tree with no matching list node it returns the
empty sequence. -/
theorem c8_find_all_idempotent (s : String) (t : SExpr) :
    find_all s t = find_all s t ∧
      ((∀ l ∈ preorderLists t, headIs s l = false) → find_all s t = []) := by
  refine ⟨rfl, fun h => ?_⟩
  rw [find_all_eq_filter]
  exact List.filter_eq_nil_iff.mpr fun a ha => by simp [h a ha]

/-- Claim C8, witness: the no-match part applied to a matchless tree. -/
theorem c8_witness :
    (∀ l ∈ preorderLists (L [.sym "kicad_sch"]), headIs "net" l = false) ∧
      find_all "net" (L [.sym "kicad_sch"]) = [] :=
  ⟨by decide, (c8_find_all_idempotent "net" (L [.sym "kicad_sch"])).2 (by decide)⟩

/-- Claim C9: whenever extraction succeeds, the title is the one taken from
the first `title_block` in preorder and, within it, from the first
`title`-headed child; every later `title_block` and later `title` child is
ignored. -/
theorem c9_first_title_block (t : SExpr) (r : Schematic)
    (h : parse_kicad_schematic t = some r) :
    r.title = firstTitleBlockTitle t := by
  obtain ⟨h1, -, -⟩ := parse_parts t r h
  unfold extractTitle at h1
  unfold firstTitleBlockTitle
  rw [← find_all_eq_filter]
  cases hfa : find_all "title_block" t with
  | nil =>
      rw [hfa] at h1
      injection h1 with h1
      rw [← h1]
      rfl
  | cons b rest =>
      rw [hfa] at h1
      simp only [List.head?]
      rcases titleFromItems_some (childrenOf b) r.title h1 with ⟨hf, hv⟩ | ⟨c, hf, hv, -⟩
      · rw [hf]
        exact hv
      · rw [hf]
        exact hv.symm

/-- Claim C9, witness: the theorem applied to a document with two
`title_block` nodes and two `title` children in the first one. -/
theorem c9_witness :
    (⟨some (.str "First"), [], []⟩ : Schematic).title =
      firstTitleBlockTitle twoTitlesDoc ∧
    firstTitleBlockTitle twoTitlesDoc = some (.str "First") :=
  ⟨c9_first_title_block twoTitlesDoc ⟨some (.str "First"), [], []⟩ (by decide),
    by decide⟩

/-- Claim C10: a `property`-headed child list with fewer than three elements
is silently ignored — deleting it from a component block leaves the
extracted record unchanged, and extraction stays total (the `len(sub) > 2`
guard covers both element accesses). -/
theorem c10_short_property_ignored (pre post : List SExpr) (sub : SExpr)
    (h1 : headIs "property" sub = true) (h2 : (childrenOf sub).length < 3) :
    extractComp (L (pre ++ sub :: post)) = extractComp (L (pre ++ post)) := by
  have hguard : headIs "property" sub = true := h1
  unfold extractComp
  have hch : ∀ l : List SExpr, childrenOf (L l) = l := fun l => toList_ofList l
  rw [hch, hch, List.foldl_append, List.foldl_append, List.foldl_cons]
  have hnone : (childrenOf sub)[2]? = none :=
    List.getElem?_eq_none (by omega)
  rw [compStep_short _ sub hnone]

/-- Claim C10, witness: the theorem applied to
`(symbol (property "Reference"))`. -/
theorem c10_witness :
    extractComp (L ([SExpr.sym "symbol"] ++
        L [.sym "property", .str "Reference"] :: [])) =
      extractComp (L ([SExpr.sym "symbol"] ++ [])) :=
  c10_short_property_ignored [SExpr.sym "symbol"] []
    (L [.sym "property", .str "Reference"]) (by decide) (by decide)
